import Mathlib

/- Verification of the gibberish-detection statistical engine
   (sanitizer, bigram model builder, score engine, baseline
   calibrator, detector facade) against its specification.

   JavaScript strings are modelled as List Char; JavaScript numbers
   are modelled as exact rationals extended with the three special
   values NaN, Infinity and -Infinity (JSNum below).  Rounding of
   binary floating point is not modelled: every claim treated here
   concerns the exact arithmetic structure of the engine, not float
   rounding.  Signed zero is not modelled either (the engine never
   distinguishes it). -/

namespace Gibberish

/-- A JavaScript number: an exact rational or one of NaN, Infinity,
-Infinity. -/
inductive JSNum where
  | nan : JSNum
  | inf : JSNum
  | ninf : JSNum
  | q : ℚ → JSNum
deriving DecidableEq

/-- Addition of JavaScript numbers: NaN propagates, Infinity plus
-Infinity is NaN, otherwise the exact sum. -/
def jsAdd (a b : JSNum) : JSNum :=
  match a with
  | .nan => .nan
  | .q x =>
    match b with
    | .nan => .nan
    | .q y => .q (x + y)
    | .inf => .inf
    | .ninf => .ninf
  | .inf =>
    match b with
    | .nan => .nan
    | .ninf => .nan
    | _ => .inf
  | .ninf =>
    match b with
    | .nan => .nan
    | .inf => .nan
    | _ => .ninf

/-- Division of JavaScript numbers: NaN propagates, zero divided by
zero is NaN, a nonzero rational divided by zero gives a signed
infinity, a rational divided by an infinity gives zero, an infinity
divided by an infinity is NaN. -/
def jsDiv (a b : JSNum) : JSNum :=
  match a with
  | .nan => .nan
  | .q x =>
    match b with
    | .nan => .nan
    | .q y =>
      if y = 0 then (if x = 0 then .nan else if 0 < x then .inf else .ninf)
      else .q (x / y)
    | .inf => .q 0
    | .ninf => .q 0
  | .inf =>
    match b with
    | .nan => .nan
    | .inf => .nan
    | .ninf => .nan
    | .q y => if y < 0 then .ninf else .inf
  | .ninf =>
    match b with
    | .nan => .nan
    | .inf => .nan
    | .ninf => .nan
    | .q y => if y < 0 then .inf else .ninf

/-- The comparison a <= b on JavaScript numbers: false whenever either
side is NaN. -/
def jsLe (a b : JSNum) : Bool :=
  match a with
  | .nan => false
  | .ninf =>
    match b with
    | .nan => false
    | _ => true
  | .inf =>
    match b with
    | .inf => true
    | _ => false
  | .q x =>
    match b with
    | .nan => false
    | .inf => true
    | .ninf => false
    | .q y => decide (x ≤ y)

/-- Math.min on two numbers: NaN-propagating minimum. -/
def jsMin (a b : JSNum) : JSNum :=
  match a with
  | .nan => .nan
  | .inf =>
    match b with
    | .nan => .nan
    | _ => b
  | .ninf =>
    match b with
    | .nan => .nan
    | _ => .ninf
  | .q x =>
    match b with
    | .nan => .nan
    | .inf => .q x
    | .ninf => .ninf
    | .q y => .q (min x y)

/-- Math.max on two numbers: NaN-propagating maximum. -/
def jsMax (a b : JSNum) : JSNum :=
  match a with
  | .nan => .nan
  | .ninf =>
    match b with
    | .nan => .nan
    | _ => b
  | .inf =>
    match b with
    | .nan => .nan
    | _ => .inf
  | .q x =>
    match b with
    | .nan => .nan
    | .ninf => .q x
    | .inf => .inf
    | .q y => .q (max x y)

/-- Math.min over a spread list of scores; the empty spread gives
Infinity. -/
def jsMinList (l : List JSNum) : JSNum := l.foldl jsMin .inf

/-- Math.max over a spread list of scores; the empty spread gives
-Infinity. -/
def jsMaxList (l : List JSNum) : JSNum := l.foldl jsMax .ninf

/-- scores.reduce of addition with initial value 0. -/
def jsSum (l : List JSNum) : JSNum := l.foldl jsAdd (.q 0)

/-- JavaScript truthiness of a number: 0 and NaN are falsy, everything
else is truthy. -/
def truthyNum (n : JSNum) : Bool :=
  match n with
  | .nan => false
  | .q x => decide (x ≠ 0)
  | _ => true

/-- The split and join on CRLF: every CRLF pair becomes one space. -/
def replaceCRLF : List Char → List Char
  | [] => []
  | [c] => [c]
  | c1 :: c2 :: rest =>
    if c1 = '\r' ∧ c2 = '\n' then ' ' :: replaceCRLF rest
    else c1 :: replaceCRLF (c2 :: rest)

/-- The split and join on a line feed: a single character map. -/
def replaceNLChar (c : Char) : Char := if c = '\n' then ' ' else c

/-- The split and join on a line feed over the whole string. -/
def replaceNL (s : List Char) : List Char := s.map replaceNLChar

/-- The split and join on a tab: a single character map. -/
def replaceTabChar (c : Char) : Char := if c = '\t' then ' ' else c

/-- The split and join on a tab over the whole string. -/
def replaceTab (s : List Char) : List Char := s.map replaceTabChar

/-- Sentence terminators become spaces: a single character map. -/
def replaceTerminatorChar (c : Char) : Char :=
  if c = '!' ∨ c = '?' ∨ c = '.' then ' ' else c

/-- Sentence terminators become spaces over the whole string. -/
def replaceTerminators (s : List Char) : List Char :=
  s.map replaceTerminatorChar

/-- Auxiliary scan for the space-collapsing regex replacement; the
flag records whether the previous emitted character was a space. -/
def collapseSpacesAux : Bool → List Char → List Char
  | _, [] => []
  | prevSpace, c :: rest =>
    if c = ' ' then
      if prevSpace then collapseSpacesAux true rest
      else ' ' :: collapseSpacesAux true rest
    else c :: collapseSpacesAux false rest

/-- The regex replacement of two-or-more spaces by one space: every
maximal run of at least two spaces is contracted to a single space,
and a run of one space is left alone, so contracting every maximal run
is equivalent. -/
def collapseSpaces (s : List Char) : List Char := collapseSpacesAux false s

/-- Modelled from the spec: the canonical NFD decompositions used by
the host normalize function, which is not part of the repository;
restricted to the precomposed Latin-1 letters (the accented Latin text
the spec names).  Every key is a non-ASCII character and every
decomposition is an ASCII base letter followed by a combining mark in
the range U+0300 to U+036F. -/
def nfdTable : List (Char × List Char) := [
  (Char.ofNat 0xC0, ['A', Char.ofNat 0x300]),
  (Char.ofNat 0xC1, ['A', Char.ofNat 0x301]),
  (Char.ofNat 0xC2, ['A', Char.ofNat 0x302]),
  (Char.ofNat 0xC3, ['A', Char.ofNat 0x303]),
  (Char.ofNat 0xC4, ['A', Char.ofNat 0x308]),
  (Char.ofNat 0xC5, ['A', Char.ofNat 0x30A]),
  (Char.ofNat 0xC7, ['C', Char.ofNat 0x327]),
  (Char.ofNat 0xC8, ['E', Char.ofNat 0x300]),
  (Char.ofNat 0xC9, ['E', Char.ofNat 0x301]),
  (Char.ofNat 0xCA, ['E', Char.ofNat 0x302]),
  (Char.ofNat 0xCB, ['E', Char.ofNat 0x308]),
  (Char.ofNat 0xCC, ['I', Char.ofNat 0x300]),
  (Char.ofNat 0xCD, ['I', Char.ofNat 0x301]),
  (Char.ofNat 0xCE, ['I', Char.ofNat 0x302]),
  (Char.ofNat 0xCF, ['I', Char.ofNat 0x308]),
  (Char.ofNat 0xD1, ['N', Char.ofNat 0x303]),
  (Char.ofNat 0xD2, ['O', Char.ofNat 0x300]),
  (Char.ofNat 0xD3, ['O', Char.ofNat 0x301]),
  (Char.ofNat 0xD4, ['O', Char.ofNat 0x302]),
  (Char.ofNat 0xD5, ['O', Char.ofNat 0x303]),
  (Char.ofNat 0xD6, ['O', Char.ofNat 0x308]),
  (Char.ofNat 0xD9, ['U', Char.ofNat 0x300]),
  (Char.ofNat 0xDA, ['U', Char.ofNat 0x301]),
  (Char.ofNat 0xDB, ['U', Char.ofNat 0x302]),
  (Char.ofNat 0xDC, ['U', Char.ofNat 0x308]),
  (Char.ofNat 0xDD, ['Y', Char.ofNat 0x301]),
  (Char.ofNat 0xE0, ['a', Char.ofNat 0x300]),
  (Char.ofNat 0xE1, ['a', Char.ofNat 0x301]),
  (Char.ofNat 0xE2, ['a', Char.ofNat 0x302]),
  (Char.ofNat 0xE3, ['a', Char.ofNat 0x303]),
  (Char.ofNat 0xE4, ['a', Char.ofNat 0x308]),
  (Char.ofNat 0xE5, ['a', Char.ofNat 0x30A]),
  (Char.ofNat 0xE7, ['c', Char.ofNat 0x327]),
  (Char.ofNat 0xE8, ['e', Char.ofNat 0x300]),
  (Char.ofNat 0xE9, ['e', Char.ofNat 0x301]),
  (Char.ofNat 0xEA, ['e', Char.ofNat 0x302]),
  (Char.ofNat 0xEB, ['e', Char.ofNat 0x308]),
  (Char.ofNat 0xEC, ['i', Char.ofNat 0x300]),
  (Char.ofNat 0xED, ['i', Char.ofNat 0x301]),
  (Char.ofNat 0xEE, ['i', Char.ofNat 0x302]),
  (Char.ofNat 0xEF, ['i', Char.ofNat 0x308]),
  (Char.ofNat 0xF1, ['n', Char.ofNat 0x303]),
  (Char.ofNat 0xF2, ['o', Char.ofNat 0x300]),
  (Char.ofNat 0xF3, ['o', Char.ofNat 0x301]),
  (Char.ofNat 0xF4, ['o', Char.ofNat 0x302]),
  (Char.ofNat 0xF5, ['o', Char.ofNat 0x303]),
  (Char.ofNat 0xF6, ['o', Char.ofNat 0x308]),
  (Char.ofNat 0xF9, ['u', Char.ofNat 0x300]),
  (Char.ofNat 0xFA, ['u', Char.ofNat 0x301]),
  (Char.ofNat 0xFB, ['u', Char.ofNat 0x302]),
  (Char.ofNat 0xFC, ['u', Char.ofNat 0x308]),
  (Char.ofNat 0xFD, ['y', Char.ofNat 0x301]),
  (Char.ofNat 0xFF, ['y', Char.ofNat 0x308])]

/-- NFD decomposition of one character: its table decomposition if it
has one, otherwise the character itself. -/
def nfdDecomp (c : Char) : List Char :=
  match nfdTable.find? (fun e => e.1 = c) with
  | some e => e.2
  | none => [c]

/-- Membership in the combining-mark range U+0300 to U+036F. -/
def isCombiningMark (c : Char) : Bool :=
  decide (0x300 ≤ c.toNat ∧ c.toNat ≤ 0x36F)

/-- Membership in the seven-bit ASCII range. -/
def isAscii (c : Char) : Bool := decide (c.toNat ≤ 0x7F)

/-- convertToLatinEquivalent: NFD-decompose, strip combining marks in
U+0300 to U+036F, then drop every remaining non-ASCII character. -/
def convertToLatinEquivalent (s : List Char) : List Char :=
  ((s.flatMap nfdDecomp).filter (fun c => !isCombiningMark c)).filter isAscii

/-- The noise character class of the final regex: the ASCII digits and
all ASCII punctuation except space and backslash (codepoints 0x21 to
0x40, 0x5B, 0x5D to 0x60 and 0x7B to 0x7E). -/
def isNoiseChar (c : Char) : Bool :=
  decide ((0x21 ≤ c.toNat ∧ c.toNat ≤ 0x40) ∨ c.toNat = 0x5B ∨
    (0x5D ≤ c.toNat ∧ c.toNat ≤ 0x60) ∨ (0x7B ≤ c.toNat ∧ c.toNat ≤ 0x7E))

/-- sanitizeText on an actual string, in source order: CRLF, LF and
tab become spaces, sentence terminators become spaces, runs of spaces
collapse to one, diacritics are stripped with remaining non-ASCII
dropped, and finally digits and punctuation are removed. -/
def sanitizeText (sample : List Char) : List Char :=
  let s1 := replaceCRLF sample
  let s2 := replaceNL s1
  let s3 := replaceTab s2
  let s4 := replaceTerminators s3
  let s5 := collapseSpaces s4
  let s6 := convertToLatinEquivalent s5
  s6.filter (fun c => !isNoiseChar c)

/-- A JavaScript value, as far as the engine inspects values. -/
inductive JSVal where
  | vstr : List Char → JSVal
  | vnum : JSNum → JSVal
  | vbool : Bool → JSVal
  | vnull : JSVal
  | vundefined : JSVal
  | varr : List JSVal → JSVal
  | vobj : List (String × JSVal) → JSVal
  | vfun : JSVal

/-- JavaScript truthiness: the empty string, 0, NaN, false, null and
undefined are falsy; every object, array and function is truthy. -/
def truthyV : JSVal → Bool
  | .vstr s => decide (s ≠ [])
  | .vnum n => truthyNum n
  | .vbool b => b
  | .vnull => false
  | .vundefined => false
  | .varr _ => true
  | .vobj _ => true
  | .vfun => true

/-- The typeof operator (null has type object, as in the language). -/
def typeofV : JSVal → String
  | .vstr _ => "string"
  | .vnum _ => "number"
  | .vbool _ => "boolean"
  | .vnull => "object"
  | .vundefined => "undefined"
  | .varr _ => "object"
  | .vobj _ => "object"
  | .vfun => "function"

/-- Array.isArray. -/
def isArrayV : JSVal → Bool
  | .varr _ => true
  | _ => false

/-- Read a property from an object field list; a later assignment of
the same name overwrites an earlier one, and a missing name reads as
undefined. -/
def getField (fields : List (String × JSVal)) (k : String) : JSVal :=
  match fields.reverse.find? (fun e => e.1 = k) with
  | some e => e.2
  | none => .vundefined

/-- Property access on a value: reading a property of null or
undefined throws a TypeError, objects read their field list, and any
other base gives undefined (no such access occurs with other bases in
the engine). -/
def getPropE (v : JSVal) (k : String) : Except String JSVal :=
  match v with
  | .vnull => .error "TypeError: cannot read properties of null"
  | .vundefined => .error "TypeError: cannot read properties of undefined"
  | .vobj fs => .ok (getField fs k)
  | _ => .ok .vundefined

/-- sanitizeText entry point on a JavaScript value: a falsy argument
is coerced to the empty string, and a remaining non-string throws. -/
def sanitizeTextJS (sample : JSVal) : Except String (List Char) :=
  let sample := if truthyV sample then sample else .vstr []
  match sample with
  | .vstr s => .ok (sanitizeText s)
  | _ => .error "Input sample must be a string"

/-- One record of the matrix: a key (two characters when produced by
training) with its count. -/
abbrev MatrixEntry := List Char × ℚ

/-- The bigram table in its serialized list form. -/
abbrev BigramMatrix := List MatrixEntry

/-- Map.prototype.set: overwrite the binding when the key is present,
otherwise append it. -/
def jsMapSet (m : BigramMatrix) (k : List Char) (v : ℚ) : BigramMatrix :=
  if (m.find? (fun e => e.1 = k)).isSome then
    m.map (fun e => if e.1 = k then (e.1, v) else e)
  else m ++ [(k, v)]

/-- Map.prototype.get, none when the key is absent. -/
def mapGet (m : BigramMatrix) (k : List Char) : Option ℚ :=
  (m.find? (fun e => e.1 = k)).map (fun e => e.2)

/-- convertJSONMatrixIntoMap: build a Map from the entry list by a
forEach of set, so a duplicated key keeps its last entry. -/
def convertJSONMatrixIntoMap (jsonArray : BigramMatrix) : BigramMatrix :=
  jsonArray.foldl (fun map item => jsMapSet map item.1 item.2) []

/-- The adjacent character pairs of a character list, in order; the
source loop over the split characters with the break at the final
character visits exactly these pairs. -/
def pairsOf (s : List Char) : List (List Char) :=
  (s.zip s.tail).map (fun cc => [cc.1, cc.2])

/-- The guarded accumulation of a looked-up weight: the count is added
only when the lookup result is truthy, so an absent pair and a pair
with count zero both contribute nothing. -/
def addTruthy (totalScore : ℚ) (modelFind : Option ℚ) : ℚ :=
  match modelFind with
  | some v => if v = 0 then totalScore else totalScore + v
  | none => totalScore

/-- One iteration of the scoring loop on the state (modelCache,
pairCount, totalScore): consult the per-call cache first when caching
is on, fall back to the matrix Map, record a found weight in the
cache, count the pair, and accumulate a truthy find. -/
def scoreStep (matrixMap : BigramMatrix) (useCache : Bool)
    (st : BigramMatrix × Nat × ℚ) (letterPair : List Char) :
    BigramMatrix × Nat × ℚ :=
  let modelCache := st.1
  let pairCount := st.2.1
  let totalScore := st.2.2
  match (if useCache then mapGet modelCache letterPair else none) with
  | some v => (modelCache, pairCount + 1, addTruthy totalScore (some v))
  | none =>
    match mapGet matrixMap letterPair with
    | some v =>
      ((if useCache then jsMapSet modelCache letterPair v else modelCache),
        pairCount + 1, addTruthy totalScore (some v))
    | none => (modelCache, pairCount + 1, totalScore)

/-- The body of assignScore after sanitization: replace remaining line
feeds with spaces, lowercase, convert the matrix into a Map, fold the
scoring loop over the adjacent pairs starting from a fresh empty cache,
and return the average (NaN when there is no pair, since the source
divides zero by zero there). -/
def assignScoreCore (sanitized : List Char) (matrix : BigramMatrix)
    (useCache : Bool) : JSNum :=
  let test := replaceNL sanitized
  let split := test.map Char.toLower
  let matrixMap := convertJSONMatrixIntoMap matrix
  let st := (pairsOf split).foldl (scoreStep matrixMap useCache)
    (([] : BigramMatrix), 0, (0 : ℚ))
  if st.2.1 = 0 then .nan else .q (st.2.2 / (st.2.1 : ℚ))

/-- assignScore on an actual string: sanitize, then run the scoring
loop. -/
def assignScore (test : List Char) (matrix : BigramMatrix)
    (useCache : Bool) : JSNum :=
  assignScoreCore (sanitizeText test) matrix useCache

/-- assignScore on a JavaScript value: the sanitizer may throw on a
truthy non-string argument. -/
def assignScoreJS (test : JSVal) (matrix : BigramMatrix)
    (useCache : Bool) : Except String JSNum :=
  match sanitizeTextJS test with
  | .error e => .error e
  | .ok s => .ok (assignScoreCore s matrix useCache)

/-- The aggregate of a scored line set. -/
structure Stats where
  min : JSNum
  max : JSNum
  avg : JSNum
deriving DecidableEq

/-- The two baselines of a model. -/
structure Baseline where
  good : Stats
  bad : Stats
deriving DecidableEq

/-- The trained artifact: matrix and baseline. -/
structure Model where
  matrix : BigramMatrix
  baseline : Baseline
deriving DecidableEq

/-- The characters removed by trim (the ASCII whitespace characters;
the exotic Unicode space characters do not occur in any claim). -/
def isTrimWS (c : Char) : Bool :=
  decide (c = ' ' ∨ c = '\t' ∨ c = '\n' ∨ c = '\r' ∨
    c = Char.ofNat 0x0B ∨ c = Char.ofNat 0x0C)

/-- String.prototype.trim. -/
def trimString (s : List Char) : List Char :=
  ((s.dropWhile isTrimWS).reverse.dropWhile isTrimWS).reverse

/-- scoreLines: score every trimmed line with the default cache
policy and reduce to minimum, maximum and arithmetic mean. -/
def scoreLines (lines : List (List Char)) (model : BigramMatrix) : Stats :=
  let scores := lines.map (fun line => assignScore (trimString line) model true)
  ⟨jsMinList scores, jsMaxList scores,
    jsDiv (jsSum scores) (.q (scores.length : ℚ))⟩

/-- A line-set argument: a single newline-delimited string or an
explicit array of line strings. -/
inductive LinesInput where
  | str : List Char → LinesInput
  | arr : List (List Char) → LinesInput

/-- Convert a line-delimited string into an array of trimmed lines; an
explicit array is used as given. -/
def linesOf : LinesInput → List (List Char)
  | .str s => (List.splitOn '\n' s).map trimString
  | .arr a => a

/-- One step of the training loop: bump the count of an already seen
pair, otherwise append a fresh entry with count one. -/
def trainStep (analysis : BigramMatrix) (letterPair : List Char) :
    BigramMatrix :=
  if (analysis.find? (fun e => e.1 = letterPair)).isSome then
    analysis.map (fun e => if e.1 = letterPair then (e.1, e.2 + 1) else e)
  else analysis ++ [(letterPair, 1)]

/-- train: sanitize and lowercase the corpus, count its adjacent
pairs, sort the matrix by count descending (a stable sort, as the
current language standard requires; entries of equal count never
matter to any claim because key lookup and count sum are invariant
under permutation, which the theorems below prove), and calibrate the
two baselines by scoring the labeled line sets against that matrix. -/
def train (sample : List Char) (goodLines badLines : LinesInput) : Model :=
  let s := sanitizeText sample
  let split := s.map Char.toLower
  let analysis := (pairsOf split).foldl trainStep []
  let analysisSorted := List.insertionSort (fun a b => b.2 ≤ a.2) analysis
  let good := linesOf goodLines
  let bad := linesOf badLines
  ⟨analysisSorted, ⟨scoreLines good analysisSorted, scoreLines bad analysisSorted⟩⟩

/-- calculateThreshold: the mean of the good minimum and the bad
maximum. -/
def calculateThreshold (model : Model) : JSNum :=
  jsDiv (jsAdd model.baseline.good.min model.baseline.bad.max) (.q 2)

/-- testGibberish: a falsy threshold function argument falls back to
calculateThreshold, the string is scored against the matrix of the
model, and the verdict is the comparison of the score against the
threshold (true means gibberish). -/
def testGibberish (test : List Char) (model : Model)
    (thresholdFn : Option (Model → JSNum)) (useCache : Bool) : Bool :=
  let tf := thresholdFn.getD calculateThreshold
  let score := assignScore test model.matrix useCache
  let threshold := tf model
  jsLe score threshold

/-- testGibberish on a JavaScript value: scoring may throw inside the
sanitizer before the threshold is ever computed. -/
def testGibberishJS (test : JSVal) (model : Model)
    (thresholdFn : Option (Model → JSNum)) (useCache : Bool) :
    Except String Bool :=
  match assignScoreJS test model.matrix useCache with
  | .error e => .error e
  | .ok score => .ok (jsLe score ((thresholdFn.getD calculateThreshold) model))

/-- The some-callback loop of isValidMatrix over the entries: the
callback returns true (setting the error state and stopping the
iteration) at the first entry that is not a non-array object, whose x
is not a two-character string, or whose y is not number-typed; reading
a property of a null entry throws, exactly as in the language. -/
def matrixEntriesSome : List JSVal → Except String Bool
  | [] => .ok false
  | m :: rest =>
    if typeofV m ≠ "object" ∨ isArrayV m then .ok true
    else
      match getPropE m "x" with
      | .error e => .error e
      | .ok x =>
        if (match x with
            | .vstr s => decide (s.length ≠ 2)
            | _ => true) then .ok true
        else
          match getPropE m "y" with
          | .error e => .error e
          | .ok y =>
            if typeofV y ≠ "number" then .ok true
            else matrixEntriesSome rest

/-- isValidMatrix: false for a falsy or non-array candidate, otherwise
the negation of the error state left by the some-loop over the
entries. -/
def isValidMatrixJS (matrix : JSVal) : Except String Bool :=
  if ¬ truthyV matrix ∨ ¬ isArrayV matrix then .ok false
  else
    match matrix with
    | .varr entries =>
      match matrixEntriesSome entries with
      | .error e => .error e
      | .ok errorState => .ok (!errorState)
    | _ => .ok false

/-- isValidModel: the candidate must be a truthy non-array object, its
matrix must pass isValidMatrix, and baseline, baseline.good and
baseline.bad must be truthy non-array objects whose min, max and avg
fields are all number-typed. -/
def isValidModelJS (model : JSVal) : Except String Bool :=
  if ¬ truthyV model ∨ typeofV model ≠ "object" ∨ isArrayV model then .ok false
  else
    match model with
    | .vobj fs =>
      match isValidMatrixJS (getField fs "matrix") with
      | .error e => .error e
      | .ok false => .ok false
      | .ok true =>
        let baseline := getField fs "baseline"
        if ¬ truthyV baseline ∨ typeofV baseline ≠ "object" ∨ isArrayV baseline
          then .ok false
        else
          match baseline with
          | .vobj bfs =>
            let good := getField bfs "good"
            if ¬ truthyV good ∨ typeofV good ≠ "object" ∨ isArrayV good
              then .ok false
            else
              match good with
              | .vobj gfs =>
                if typeofV (getField gfs "min") ≠ "number" ∨
                   typeofV (getField gfs "max") ≠ "number" ∨
                   typeofV (getField gfs "avg") ≠ "number" then .ok false
                else
                  let bad := getField bfs "bad"
                  if ¬ truthyV bad ∨ typeofV bad ≠ "object" ∨ isArrayV bad
                    then .ok false
                  else
                    match bad with
                    | .vobj dfs =>
                      if typeofV (getField dfs "min") ≠ "number" ∨
                         typeofV (getField dfs "max") ≠ "number" ∨
                         typeofV (getField dfs "avg") ≠ "number" then .ok false
                      else .ok true
                    | _ => .ok false
              | _ => .ok false
          | _ => .ok false
    | _ => .ok false

/-- The serialized object form of a Stats value. -/
def statsToJS (s : Stats) : JSVal :=
  .vobj [("min", .vnum s.min), ("max", .vnum s.max), ("avg", .vnum s.avg)]

/-- The serialized object form of a typed model, as it is held by the
configuration and handed to the validators. -/
def modelToJS (m : Model) : JSVal :=
  .vobj [("matrix", .varr (m.matrix.map (fun e =>
      .vobj [("x", .vstr e.1), ("y", .vnum (.q e.2))]))),
    ("baseline", .vobj [("good", statsToJS m.baseline.good),
      ("bad", statsToJS m.baseline.bad)])]

/-- detect: a truthy model override that fails isValidModel throws,
an accepted or absent override selects the model used, and the verdict
is testGibberish with the configured threshold function and cache
flag. -/
def detect (testString : JSVal) (overrideModel : Option Model)
    (cfgModel : Model) (cfgThresholdFn : Option (Model → JSNum))
    (cfgUseCache : Bool) : Except String Bool :=
  match overrideModel with
  | some m =>
    match isValidModelJS (modelToJS m) with
    | .error e => .error e
    | .ok false => .error "Malformed learning model provided"
    | .ok true => testGibberishJS testString m cfgThresholdFn cfgUseCache
  | none => testGibberishJS testString cfgModel cfgThresholdFn cfgUseCache

/-- testConfig: throw when the configured model fails isValidModel,
when the threshold function is not callable, or when the cache flag is
not boolean. -/
def testConfig (config : List (String × JSVal)) : Except String Unit :=
  match isValidModelJS (getField config "model") with
  | .error e => .error e
  | .ok false => .error "model provided is not a valid structure."
  | .ok true =>
    if typeofV (getField config "thresholdFn") ≠ "function" then
      .error "thresholdFn must be a function"
    else if typeofV (getField config "useCache") ≠ "boolean" then
      .error "useCache must be a boolean"
    else .ok ()

/-- Assignment of one property on an object field list. -/
def setField (config : List (String × JSVal)) (name : String)
    (value : JSVal) : List (String × JSVal) :=
  config ++ [(name, value)]

/-- The set method: write the new value on a clone of the
configuration, validate the clone with testConfig, and only when no
exception was thrown return the updated configuration. -/
def setJS (config : List (String × JSVal)) (name : String)
    (value : JSVal) : Except String (List (String × JSVal)) :=
  let cloneConfig := setField config name value
  match testConfig cloneConfig with
  | .error e => .error e
  | .ok _ => .ok cloneConfig

/-- The state transition a detector object undergoes on a set call: on
success the stored configuration becomes the updated one, and when
testConfig throws the exception propagates with the stored
configuration untouched. -/
def applySet (config : List (String × JSVal)) (name : String)
    (value : JSVal) : List (String × JSVal) × Option String :=
  match setJS config name value with
  | .ok c => (c, none)
  | .error e => (config, some e)

/-- The get method. -/
def getJS (config : List (String × JSVal)) (name : String) : JSVal :=
  getField config name

/-- No two adjacent spaces occur in the list (the normal form
established by the space-collapsing step). -/
def noDouble : List Char → Bool
  | [] => true
  | c :: rest =>
    (!(decide (c = ' ') && decide (rest.head? = some ' '))) && noDouble rest

/-- The count a key is expected to carry after n fresh observations on
top of a prior binding: a fresh key observed zero times stays absent,
otherwise the count grows by n from its prior value or from zero. -/
def specCount (prior : Option ℚ) (n : Nat) : Option ℚ :=
  match prior with
  | some v => some (v + (n : ℚ))
  | none => if n = 0 then none else some ((n : ℚ))

/-- The total number of pair observations recorded in a matrix. -/
def sumY (m : BigramMatrix) : ℚ := (m.map (fun e => e.2)).sum

/-- A small concrete well-formed model used by witnesses. -/
def modelA : Model :=
  ⟨[(['a', 'b'], 2)], ⟨⟨.q 2, .q 2, .q 2⟩, ⟨.q 1, .q 1, .q 1⟩⟩⟩

/-- A small concrete configuration object that passes testConfig, used
by witnesses. -/
def cfgA : List (String × JSVal) :=
  [("model", modelToJS ⟨[], ⟨⟨.q 1, .q 1, .q 1⟩, ⟨.q 0, .q 0, .q 0⟩⟩⟩),
    ("thresholdFn", .vfun), ("useCache", .vbool true)]

/- ------------------------------------------------------------------
   Theorems.
   ------------------------------------------------------------------ -/

/-- Map lookup in the empty map always misses. -/
theorem mapGet_nil (k : List Char) : mapGet [] k = none := rfl

/-- A list of fewer than two characters has no adjacent pair. -/
theorem zero_pairs_of_short : ∀ {s : List Char}, s.length < 2 → pairsOf s = []
  | [], _ => rfl
  | [_], _ => rfl
  | _ :: _ :: t, h => absurd h (by simp)

/-- The number of adjacent pairs is the length minus one. -/
theorem pairsOf_length (s : List Char) : (pairsOf s).length = s.length - 1 := by
  simp [pairsOf, List.length_zip, List.length_tail]

/-- C5 helper: scoring the empty line set reduces the empty spreads
and the zero-by-zero average. -/
theorem scoreLines_nil (matrix : BigramMatrix) :
    scoreLines [] matrix = ⟨.inf, .ninf, .nan⟩ := rfl

/-- A map over a list each of whose elements is fixed by the function
is the identity. -/
theorem map_eq_self_of_mem {α : Type} {f : α → α} {l : List α}
    (h : ∀ a ∈ l, f a = a) : l.map f = l := by
  induction l with
  | nil => rfl
  | cons a rest ih =>
    simp only [List.map_cons, h a (List.mem_cons_self a rest),
      ih (fun x hx => h x (List.mem_cons_of_mem a hx)), List.cons.injEq,
      and_self]

/-- find? for a key over a list mapped by a key-preserving function. -/
theorem find?_map_keyfix (f : MatrixEntry → MatrixEntry)
    (hf : ∀ e, (f e).1 = e.1) (m : BigramMatrix) (k : List Char) :
    (m.map f).find? (fun e => e.1 = k) =
      (m.find? (fun e => e.1 = k)).map f := by
  induction m with
  | nil => rfl
  | cons e rest ih =>
    by_cases he : e.1 = k
    · rw [List.map_cons, List.find?_cons_of_pos _ (by simp [hf e, he]),
        List.find?_cons_of_pos _ (by simp [he])]
      rfl
    · rw [List.map_cons, List.find?_cons_of_neg _ (by simp [hf e, he]),
        List.find?_cons_of_neg _ (by simp [he]), ih]

/-- The lookup equation of a Map after a set: the written key reads
the written value and every other key is unaffected. -/
theorem mapGet_jsMapSet (m : BigramMatrix) (k : List Char) (v : ℚ)
    (k' : List Char) :
    mapGet (jsMapSet m k v) k' = if k' = k then some v else mapGet m k' := by
  unfold jsMapSet mapGet
  by_cases hin : (m.find? (fun e => e.1 = k)).isSome
  · rw [if_pos hin,
      find?_map_keyfix _ (fun e => by by_cases h : e.1 = k <;> simp [h]) m k']
    by_cases hk : k' = k
    · subst hk
      obtain ⟨e0, he0⟩ := Option.isSome_iff_exists.mp hin
      have hke : e0.1 = k' := by
        have := List.find?_some he0
        exact of_decide_eq_true this
      rw [if_pos rfl, he0]
      simp [hke]
    · rw [if_neg hk]
      cases hfind : m.find? (fun e => e.1 = k') with
      | none => rfl
      | some e0 =>
        have hke : e0.1 = k' := by
          have := List.find?_some hfind
          exact of_decide_eq_true this
        have hne : ¬ e0.1 = k := fun h => hk (hke ▸ h)
        simp [hne]
  · rw [if_neg hin, List.find?_append]
    have hnone : m.find? (fun e => e.1 = k) = none :=
      Option.not_isSome_iff_eq_none.mp hin
    by_cases hk : k' = k
    · subst hk
      rw [hnone, List.find?_cons_of_pos _ (by simp)]
      simp
    · have hone : (List.find? (fun e => e.1 = k') [(k, v)]) = none := by
        apply List.find?_eq_none.mpr
        intro x hx
        rw [List.mem_singleton] at hx
        subst hx
        simp only [decide_eq_true_eq]
        exact fun h => hk h.symm
      rw [if_neg hk, hone]
      cases m.find? (fun e => e.1 = k') <;> rfl

/-- One scoring step without the cache: the pair is counted and the
found-or-zero weight is accumulated. -/
theorem scoreStep_nocache (mm : BigramMatrix) (cache : BigramMatrix)
    (n : Nat) (t : ℚ) (p : List Char) :
    scoreStep mm false (cache, n, t) p =
      (cache, n + 1, t + ((mapGet mm p).getD 0)) := by
  unfold scoreStep addTruthy
  cases hm : mapGet mm p with
  | some v => by_cases hv : v = 0 <;> simp [hv]
  | none => simp

/-- The uncached scoring fold in closed form: it counts every pair and
sums the found-or-zero weights. -/
theorem scoreFold_nocache (mm : BigramMatrix) (ps : List (List Char)) :
    ∀ (cache : BigramMatrix) (n : Nat) (t : ℚ),
      ps.foldl (scoreStep mm false) (cache, n, t) =
        (cache, n + ps.length,
          t + (ps.map (fun p => (mapGet mm p).getD 0)).sum) := by
  induction ps with
  | nil => intro cache n t; simp
  | cons p rest ih =>
    intro cache n t
    rw [List.foldl_cons, scoreStep_nocache, ih]
    simp only [List.map_cons, List.sum_cons, List.length_cons,
      Prod.mk.injEq]
    refine ⟨trivial, by omega, by ring⟩

/-- One scoring step with the cache, against a cache that only holds
weights the matrix Map really assigns: the counted pair and the
accumulated weight agree with the uncached step, and the updated cache
again only holds weights the matrix Map really assigns. -/
theorem scoreStep_cache_eq (mm : BigramMatrix) (p : List Char)
    (cache cache' : BigramMatrix) (n : Nat) (t : ℚ)
    (hinv : ∀ k v, mapGet cache k = some v → mapGet mm k = some v) :
    (scoreStep mm true (cache, n, t) p).2 =
      (scoreStep mm false (cache', n, t) p).2 ∧
    (∀ k v, mapGet (scoreStep mm true (cache, n, t) p).1 k = some v →
      mapGet mm k = some v) := by
  rw [scoreStep_nocache]
  unfold scoreStep
  cases hc : mapGet cache p with
  | some v =>
    have hmv := hinv p v hc
    simp only [if_true, hc, hmv, Option.getD_some]
    exact ⟨by simp [addTruthy], hinv⟩
  | none =>
    simp only [if_true, hc]
    cases hm : mapGet mm p with
    | some v =>
      refine ⟨by simp [addTruthy, hm], ?_⟩
      intro k w hw
      rw [mapGet_jsMapSet] at hw
      by_cases hk : k = p
      · rw [if_pos hk] at hw
        rw [hk, hm, ← Option.some.injEq, hw]
      · rw [if_neg hk] at hw
        exact hinv k w hw
    | none => exact ⟨by simp [hm], hinv⟩

/-- The scoring fold with the cache computes the same pair count and
total weight as the fold without it, from any initial cache that only
holds weights the matrix Map really assigns. -/
theorem scoreFold_cache_eq (mm : BigramMatrix) (ps : List (List Char)) :
    ∀ (cache cache' : BigramMatrix) (n : Nat) (t : ℚ),
      (∀ k v, mapGet cache k = some v → mapGet mm k = some v) →
      (ps.foldl (scoreStep mm true) (cache, n, t)).2 =
        (ps.foldl (scoreStep mm false) (cache', n, t)).2 := by
  induction ps with
  | nil => intro cache cache' n t _; rfl
  | cons p rest ih =>
    intro cache cache' n t hinv
    have h := scoreStep_cache_eq mm p cache cache' n t hinv
    rw [List.foldl_cons, List.foldl_cons]
    rcases hs1 : scoreStep mm true (cache, n, t) p with ⟨c1, n1, t1⟩
    rcases hs2 : scoreStep mm false (cache', n, t) p with ⟨c2, n2, t2⟩
    rw [hs1, hs2] at h
    obtain ⟨hnt, hcinv⟩ := h
    simp only [Prod.mk.injEq] at hnt
    rw [← hnt.1, ← hnt.2]
    exact ih c1 c2 n1 t1 hcinv

/-- The score is independent of the cache flag: the per-call cache is
initialized empty and only ever holds weights the matrix Map really
assigns, so every lookup through it resolves to the same weight. -/
theorem assignScore_cache_eq (test : List Char) (matrix : BigramMatrix) :
    assignScore test matrix true = assignScore test matrix false := by
  simp only [assignScore, assignScoreCore]
  have h := scoreFold_cache_eq (convertJSONMatrixIntoMap matrix)
    (pairsOf ((replaceNL (sanitizeText test)).map Char.toLower)) [] [] 0 0
    (fun k v hkv => by rw [mapGet_nil] at hkv; exact absurd hkv (by simp))
  rw [h]

/-- C4 (confirmed): for every text and every table, scoring with the
cache enabled returns the same value as scoring with the cache
disabled; the cache is created afresh inside each call (it is the
empty Map at the start of the scoring fold), so no state flows from
one score call to the next. -/
theorem C4_cache_transparent (test : List Char) (matrix : BigramMatrix) :
    assignScore test matrix true = assignScore test matrix false :=
  assignScore_cache_eq test matrix

/-- The space-collapsing scan only ever emits characters of its
input. -/
theorem mem_collapseSpacesAux {c : Char} :
    ∀ (b : Bool) (s : List Char), c ∈ collapseSpacesAux b s → c ∈ s
  | _, [] => fun h => by simp [collapseSpacesAux] at h
  | b, a :: rest => fun h => by
    by_cases ha : a = ' '
    · subst ha
      rw [collapseSpacesAux, if_pos rfl] at h
      cases b with
      | true =>
        exact List.mem_cons_of_mem _ (mem_collapseSpacesAux true rest h)
      | false =>
        rcases List.mem_cons.mp h with hc | hc
        · exact hc ▸ List.mem_cons_self _ _
        · exact List.mem_cons_of_mem _ (mem_collapseSpacesAux true rest hc)
    · rw [collapseSpacesAux, if_neg ha] at h
      rcases List.mem_cons.mp h with hc | hc
      · exact hc ▸ List.mem_cons_self _ _
      · exact List.mem_cons_of_mem _ (mem_collapseSpacesAux false rest hc)

/-- Every character of the Latin conversion either occurs in the input
or inside one of the table decompositions. -/
theorem mem_convertToLatin {c : Char} {l : List Char}
    (h : c ∈ convertToLatinEquivalent l) :
    c ∈ l ∨ ∃ e ∈ nfdTable, c ∈ e.2 := by
  unfold convertToLatinEquivalent at h
  have h1 := (List.mem_filter.mp h).1
  have h2 := (List.mem_filter.mp h1).1
  obtain ⟨d, hd, hcd⟩ := List.mem_flatMap.mp h2
  unfold nfdDecomp at hcd
  cases hfind : nfdTable.find? (fun e => e.1 = d) with
  | none =>
    rw [hfind] at hcd
    rw [List.mem_singleton] at hcd
    exact Or.inl (hcd ▸ hd)
  | some e =>
    rw [hfind] at hcd
    exact Or.inr ⟨e, List.mem_of_find?_eq_some hfind, hcd⟩

/-- The line-feed map never emits a line feed. -/
theorem replaceNLChar_ne_nl (c : Char) : replaceNLChar c ≠ '\n' := by
  unfold replaceNLChar
  split
  · decide
  · assumption

/-- The tab map never emits a tab. -/
theorem replaceTabChar_ne_tab (c : Char) : replaceTabChar c ≠ '\t' := by
  unfold replaceTabChar
  split
  · decide
  · assumption

/-- A line feed can only come out of the tab map when it went in. -/
theorem replaceTabChar_eq_nl {c : Char} (h : replaceTabChar c = '\n') :
    c = '\n' := by
  unfold replaceTabChar at h
  split at h
  · exact absurd h (by decide)
  · exact h

/-- A line feed can only come out of the terminator map when it went
in. -/
theorem replaceTerminatorChar_eq_nl {c : Char}
    (h : replaceTerminatorChar c = '\n') : c = '\n' := by
  unfold replaceTerminatorChar at h
  split at h
  · exact absurd h (by decide)
  · exact h

/-- A tab can only come out of the terminator map when it went in. -/
theorem replaceTerminatorChar_eq_tab {c : Char}
    (h : replaceTerminatorChar c = '\t') : c = '\t' := by
  unfold replaceTerminatorChar at h
  split at h
  · exact absurd h (by decide)
  · exact h

/-- The sanitizer output never contains a line feed: the early
replacement steps eliminate it, the later steps introduce no new one
(checked against the decomposition table), and the filters only
remove. -/
theorem nl_notin_sanitizeText (x : List Char) : '\n' ∉ sanitizeText x := by
  intro hin
  simp only [sanitizeText, collapseSpaces, replaceTerminators, replaceTab,
    replaceNL] at hin
  have h6 := (List.mem_filter.mp hin).1
  rcases mem_convertToLatin h6 with h5 | ⟨e, he, hce⟩
  · have h4 := mem_collapseSpacesAux false _ h5
    obtain ⟨d, hd, hdc⟩ := List.mem_map.mp h4
    have hd2 : d = '\n' := replaceTerminatorChar_eq_nl hdc
    subst hd2
    obtain ⟨d2, hd2m, hd2c⟩ := List.mem_map.mp hd
    have hd3 : d2 = '\n' := replaceTabChar_eq_nl hd2c
    subst hd3
    obtain ⟨d3, _, hd3c⟩ := List.mem_map.mp hd2m
    exact replaceNLChar_ne_nl d3 hd3c
  · have hdec : ∀ e ∈ nfdTable, ('\n' : Char) ∉ e.2 := by decide
    exact hdec e he hce

/-- The residual line-feed replacement inside assignScore is the
identity, because the sanitizer left no line feed. -/
theorem replaceNL_sanitizeText (x : List Char) :
    replaceNL (sanitizeText x) = sanitizeText x := by
  unfold replaceNL
  apply map_eq_self_of_mem
  intro c hc
  unfold replaceNLChar
  rw [if_neg]
  intro hEq
  exact nl_notin_sanitizeText x (hEq ▸ hc)

/-- C2 (confirmed): for every text whose sanitized, lowercased form
has at least one adjacent pair, and every table with positive counts,
the score is the sum over the pairs of the found-or-zero table weight,
divided by the number of pairs; absent pairs contribute zero to the
numerator but are still counted in the denominator. -/
theorem C2_score_average (test : List Char) (matrix : BigramMatrix)
    (useCache : Bool)
    (hk : 2 ≤ ((sanitizeText test).map Char.toLower).length)
    (hpos : ∀ e ∈ matrix, 0 < e.2) :
    assignScore test matrix useCache =
      .q ((((pairsOf ((sanitizeText test).map Char.toLower)).map
          (fun p => (mapGet (convertJSONMatrixIntoMap matrix) p).getD 0)).sum) /
        ((pairsOf ((sanitizeText test).map Char.toLower)).length : ℚ)) := by
  have hcc : assignScore test matrix useCache =
      assignScore test matrix false := by
    cases useCache
    · rfl
    · exact assignScore_cache_eq test matrix
  rw [hcc]
  simp only [assignScore, assignScoreCore, replaceNL_sanitizeText]
  rw [scoreFold_nocache]
  have hlen0 :
      (pairsOf ((sanitizeText test).map Char.toLower)).length ≠ 0 := by
    rw [pairsOf_length]
    omega
  simp only [zero_add]
  rw [if_neg hlen0]

/-- C2 witness: the theorem applied to a concrete text and table; the
pair ab is found with weight 2 twice and the pair ba misses, giving
the average of four thirds over three pairs. -/
theorem C2_score_average_witness :
    assignScore ['a', 'b', 'a', 'b'] [(['a', 'b'], 2)] true = .q (4 / 3) := by
  have h := C2_score_average ['a', 'b', 'a', 'b'] [(['a', 'b'], 2)] true
    (by decide) (by decide)
  rw [h]
  have hs : (sanitizeText ['a', 'b', 'a', 'b']).map Char.toLower =
      ['a', 'b', 'a', 'b'] := by decide
  rw [hs]
  have hp : pairsOf ['a', 'b', 'a', 'b'] =
      [['a', 'b'], ['b', 'a'], ['a', 'b']] := by decide
  rw [hp]
  have h1 : mapGet (convertJSONMatrixIntoMap [(['a', 'b'], 2)]) ['a', 'b'] =
      some 2 := by decide
  have h2 : mapGet (convertJSONMatrixIntoMap [(['a', 'b'], 2)]) ['b', 'a'] =
      none := by decide
  simp only [List.map_cons, List.map_nil, h1, h2, Option.getD_some,
    Option.getD_none, List.sum_cons, List.sum_nil, List.length_cons,
    List.length_nil, JSNum.q.injEq]
  norm_num

/-- The JavaScript entry of the sanitizer on a genuine string always
succeeds with the sanitized text (the empty string is falsy but is
coerced back to the empty string). -/
theorem sanitizeTextJS_vstr (s : List Char) :
    sanitizeTextJS (.vstr s) = .ok (sanitizeText s) := by
  by_cases h : s = []
  · subst h; rfl
  · simp [sanitizeTextJS, truthyV, h]

/-- testGibberish through the JavaScript wrappers agrees with the
typed testGibberish on genuine strings. -/
theorem testGibberishJS_vstr (s : List Char) (model : Model)
    (tf : Option (Model → JSNum)) (uc : Bool) :
    testGibberishJS (.vstr s) model tf uc =
      .ok (testGibberish s model tf uc) := by
  simp [testGibberishJS, assignScoreJS, sanitizeTextJS_vstr, testGibberish,
    assignScore]

/-- C10 (confirmed): the empty array passes isValidMatrix, a model
with an empty matrix and number-typed baseline fields passes
isValidModel and is accepted by detect as an override without
raising, and against such a model every looked-up pair contributes
zero, so any input with at least one sanitized pair scores exactly
zero. -/
theorem C10_empty_matrix_model (g1 g2 g3 b1 b2 b3 : JSNum)
    (test : List Char) (cfg : Model) (tf : Option (Model → JSNum))
    (uc : Bool)
    (h : 2 ≤ ((sanitizeText test).map Char.toLower).length) :
    isValidMatrixJS (.varr []) = .ok true ∧
    isValidModelJS (modelToJS ⟨[], ⟨⟨g1, g2, g3⟩, ⟨b1, b2, b3⟩⟩⟩) = .ok true ∧
    detect (.vstr test) (some ⟨[], ⟨⟨g1, g2, g3⟩, ⟨b1, b2, b3⟩⟩⟩) cfg tf uc =
      .ok (testGibberish test ⟨[], ⟨⟨g1, g2, g3⟩, ⟨b1, b2, b3⟩⟩⟩ tf uc) ∧
    assignScore test [] uc = .q 0 := by
  refine ⟨rfl, rfl, ?_, ?_⟩
  · have hv : isValidModelJS (modelToJS ⟨[], ⟨⟨g1, g2, g3⟩, ⟨b1, b2, b3⟩⟩⟩) =
        .ok true := rfl
    simp [detect, hv, testGibberishJS_vstr]
  · have hcc : assignScore test [] uc = assignScore test [] false := by
      cases uc
      · rfl
      · exact assignScore_cache_eq test []
    rw [hcc]
    simp only [assignScore, assignScoreCore, replaceNL_sanitizeText]
    rw [scoreFold_nocache]
    have hsum : ∀ (l : List (List Char)),
        (l.map (fun p =>
          (mapGet (convertJSONMatrixIntoMap []) p).getD 0)).sum = (0 : ℚ) := by
      intro l
      induction l with
      | nil => rfl
      | cons a r ih =>
        simp [ih, show mapGet (convertJSONMatrixIntoMap []) a = none from rfl]
    rw [hsum]
    have hlen0 :
        (pairsOf ((sanitizeText test).map Char.toLower)).length ≠ 0 := by
      rw [pairsOf_length]
      omega
    simp only [zero_add]
    rw [if_neg hlen0]
    simp

/-- C10 witness: the theorem applied at concrete baseline numbers and
a concrete two-character input. -/
theorem C10_empty_matrix_model_witness :
    isValidMatrixJS (.varr []) = .ok true ∧
    isValidModelJS
      (modelToJS ⟨[], ⟨⟨.q 1, .q 1, .q 1⟩, ⟨.q 0, .q 0, .q 0⟩⟩⟩) = .ok true ∧
    detect (.vstr ['a', 'b'])
        (some ⟨[], ⟨⟨.q 1, .q 1, .q 1⟩, ⟨.q 0, .q 0, .q 0⟩⟩⟩) modelA none true =
      .ok (testGibberish ['a', 'b']
        ⟨[], ⟨⟨.q 1, .q 1, .q 1⟩, ⟨.q 0, .q 0, .q 0⟩⟩⟩ none true) ∧
    assignScore ['a', 'b'] [] true = .q 0 :=
  C10_empty_matrix_model (.q 1) (.q 1) (.q 1) (.q 0) (.q 0) (.q 0)
    ['a', 'b'] modelA none true (by decide)

/-- C1 (corrected) — the claim as frozen is false on the code: on a
concrete well-formed model modelA, detect of the empty string and
of the single character string both return false, not true, because
the zero-pair score is NaN and NaN compared to any threshold is
false. -/
theorem C1_counterexample :
    detect (.vstr []) none modelA none true = .ok false ∧
    detect (.vstr ['a']) none modelA none true = .ok false := ⟨rfl, rfl⟩

/-- C1 (amended): for every input whose sanitized, lowercased form has
fewer than two characters (zero adjacent pairs), testGibberish returns
false — classified as not gibberish — regardless of model, threshold
function and cache flag, because the score is the non-numeric NaN and
the comparison of NaN against any threshold is false. -/
theorem C1_zero_pair_detect_false (test : List Char) (model : Model)
    (thresholdFn : Option (Model → JSNum)) (useCache : Bool)
    (h : ((sanitizeText test).map Char.toLower).length < 2) :
    testGibberish test model thresholdFn useCache = false := by
  have hp : pairsOf ((replaceNL (sanitizeText test)).map Char.toLower) = [] := by
    apply zero_pairs_of_short
    simpa [replaceNL] using h
  simp [testGibberish, assignScore, assignScoreCore, hp, jsLe]

/-- C1 witness: the amended theorem applied to the empty string and a
concrete model. -/
theorem C1_zero_pair_detect_false_witness :
    testGibberish [] modelA none true = false :=
  C1_zero_pair_detect_false [] modelA none true (by decide)

/-- C5 (corrected) — the claim as frozen is false on the code: train
invoked with an empty good line set does not raise any error; it
returns a model whose good baseline is the degenerate triple of
Infinity (empty min spread), -Infinity (empty max spread) and NaN
(zero divided by zero). -/
theorem C5_counterexample :
    (train ['a', 'b'] (.arr []) (.arr [['a', 'b']])).baseline.good =
      ⟨.inf, .ninf, .nan⟩ := rfl

/-- C5 (amended): calibration of an empty line set never fails: for
every matrix, scoreLines of the empty list returns the degenerate
stats with min Infinity, max -Infinity and avg NaN, and train with an
empty good line set embeds exactly these stats in the produced model
instead of raising. -/
theorem C5_empty_calibration_degenerate (matrix : BigramMatrix)
    (sample : List Char) (badLines : LinesInput) :
    scoreLines [] matrix = ⟨.inf, .ninf, .nan⟩ ∧
    (train sample (.arr []) badLines).baseline.good = ⟨.inf, .ninf, .nan⟩ := by
  refine ⟨scoreLines_nil matrix, ?_⟩
  simp [train, linesOf, scoreLines_nil]

/-- C6 (corrected) — the claim as frozen is false on the code: a
matrix entry whose count is the number -5, not a positive integer, is
accepted by isValidMatrix. -/
theorem C6_counterexample :
    isValidMatrixJS
      (.varr [.vobj [("x", .vstr ['a', 'b']), ("y", .vnum (.q (-5)))]]) =
      .ok true := rfl

/-- C6 (amended): isValidMatrix checks only that every entry is a
non-array object whose x is a two-character string and whose y has
type number; it does not check positivity or integrality, so negative,
zero, fractional and NaN counts are all accepted (and a model carrying
such a matrix passes isValidModel), while a string-typed count, a
wrong-length key or a missing key are rejected. -/
theorem C6_matrix_validator_shape_only :
    (∀ y : JSNum, isValidMatrixJS
      (.varr [.vobj [("x", .vstr ['a', 'b']), ("y", .vnum y)]]) = .ok true) ∧
    (∀ y : JSNum, isValidModelJS
      (.vobj [("matrix", .varr [.vobj [("x", .vstr ['a', 'b']), ("y", .vnum y)]]),
        ("baseline", .vobj [
          ("good", .vobj [("min", .vnum (.q 1)), ("max", .vnum (.q 1)),
            ("avg", .vnum (.q 1))]),
          ("bad", .vobj [("min", .vnum (.q 0)), ("max", .vnum (.q 0)),
            ("avg", .vnum (.q 0))])])]) = .ok true) ∧
    isValidMatrixJS
      (.varr [.vobj [("x", .vstr ['a', 'b']), ("y", .vstr ['5'])]]) = .ok false ∧
    isValidMatrixJS
      (.varr [.vobj [("x", .vstr ['a']), ("y", .vnum (.q 1))]]) = .ok false ∧
    isValidMatrixJS (.varr [.vobj [("y", .vnum (.q 1))]]) = .ok false :=
  ⟨fun _ => rfl, fun _ => rfl, rfl, rfl, rfl⟩

/-- C8 (confirmed): sanitize coerces each falsy input — empty string,
null, undefined, false — to the empty string without raising, and
raises the input-type error for arrays, plain objects and functions;
consequently detect on the falsy inputs succeeds and detect on the
structurally wrong inputs throws, whatever the configured model,
threshold function and cache flag. -/
theorem C8_falsy_coerced_wrong_type_throws (cfg : Model)
    (tf : Option (Model → JSNum)) (uc : Bool) (xs : List JSVal)
    (fs : List (String × JSVal)) :
    sanitizeTextJS (.vstr []) = .ok [] ∧
    sanitizeTextJS .vnull = .ok [] ∧
    sanitizeTextJS .vundefined = .ok [] ∧
    sanitizeTextJS (.vbool false) = .ok [] ∧
    (detect (.vstr []) none cfg tf uc).isOk = true ∧
    (detect .vnull none cfg tf uc).isOk = true ∧
    (detect .vundefined none cfg tf uc).isOk = true ∧
    (detect (.vbool false) none cfg tf uc).isOk = true ∧
    sanitizeTextJS (.varr xs) = .error "Input sample must be a string" ∧
    sanitizeTextJS (.vobj fs) = .error "Input sample must be a string" ∧
    sanitizeTextJS .vfun = .error "Input sample must be a string" ∧
    detect (.varr xs) none cfg tf uc = .error "Input sample must be a string" ∧
    detect (.vobj fs) none cfg tf uc = .error "Input sample must be a string" ∧
    detect .vfun none cfg tf uc = .error "Input sample must be a string" :=
  ⟨rfl, rfl, rfl, rfl, rfl, rfl, rfl, rfl, rfl, rfl, rfl, rfl, rfl, rfl⟩

/-- C9 (confirmed): set is atomic on error: whenever validation of the
updated configuration fails, the set call raises exactly that error
and the stored configuration is left untouched, so every subsequent
get returns the prior value; the update is validated on a clone before
being applied. -/
theorem C9_set_atomic_on_error (config : List (String × JSVal))
    (name : String) (value : JSVal) (e : String)
    (h : testConfig (setField config name value) = .error e) :
    applySet config name value = (config, some e) ∧
    ∀ n, getJS (applySet config name value).1 n = getJS config n := by
  have hs : setJS config name value = .error e := by
    simp [setJS, h]
  exact ⟨by simp [applySet, hs], fun n => by simp [applySet, hs]⟩

/-- C9 witness: setting useCache to a string on a valid concrete
configuration raises the boolean-flag error and leaves the stored
configuration unchanged. -/
theorem C9_set_atomic_on_error_witness :
    applySet cfgA "useCache" (.vstr ['W']) =
      (cfgA, some "useCache must be a boolean") :=
  (C9_set_atomic_on_error cfgA "useCache" (.vstr ['W'])
    "useCache must be a boolean" rfl).1

/-- Keys of a matrix mapped by a key-preserving function are
unchanged. -/
theorem map_comp_keyfix (f : MatrixEntry → MatrixEntry)
    (hf : ∀ e, (f e).1 = e.1) (m : BigramMatrix) :
    (m.map f).map (fun e => e.1) = m.map (fun e => e.1) := by
  induction m with
  | nil => rfl
  | cons e rest ih => simp [hf e, ih]

/-- The lookup equation of one training step: the observed pair reads
its bumped count (or a fresh count of one) and every other key is
unaffected. -/
theorem mapGet_trainStep (m : BigramMatrix) (p k : List Char) :
    mapGet (trainStep m p) k =
      if k = p then
        (match mapGet m p with
          | some v => some (v + 1)
          | none => some 1)
      else mapGet m k := by
  unfold trainStep mapGet
  by_cases hin : (m.find? (fun e => e.1 = p)).isSome
  · rw [if_pos hin,
      find?_map_keyfix _ (fun e => by by_cases h : e.1 = p <;> simp [h]) m k]
    by_cases hk : k = p
    · subst hk
      obtain ⟨e0, he0⟩ := Option.isSome_iff_exists.mp hin
      have hke : e0.1 = k := by
        have := List.find?_some he0
        exact of_decide_eq_true this
      rw [if_pos rfl, he0]
      simp [hke]
    · rw [if_neg hk]
      cases hfind : m.find? (fun e => e.1 = k) with
      | none => rfl
      | some e0 =>
        have hke : e0.1 = k := by
          have := List.find?_some hfind
          exact of_decide_eq_true this
        have hne : ¬ e0.1 = p := fun hcontr => hk (hke ▸ hcontr)
        simp [hne]
  · rw [if_neg hin, List.find?_append]
    have hnone : m.find? (fun e => e.1 = p) = none :=
      Option.not_isSome_iff_eq_none.mp hin
    by_cases hk : k = p
    · subst hk
      rw [hnone, List.find?_cons_of_pos _ (by simp)]
      simp
    · have hone : (List.find? (fun e => e.1 = k) ([(p, 1)] : BigramMatrix)) =
          none := by
        apply List.find?_eq_none.mpr
        intro x hx
        rw [List.mem_singleton] at hx
        subst hx
        simp only [decide_eq_true_eq]
        exact fun hcontr => hk hcontr.symm
      rw [if_neg hk, hone]
      cases m.find? (fun e => e.1 = k) <;> rfl

/-- The training fold realizes exactly the occurrence count of each
key on top of its prior binding. -/
theorem mapGet_trainFold (ps : List (List Char)) :
    ∀ (m : BigramMatrix) (k : List Char),
      mapGet (ps.foldl trainStep m) k = specCount (mapGet m k) (ps.count k) := by
  induction ps with
  | nil =>
    intro m k
    cases h : mapGet m k <;> simp [specCount, h]
  | cons p rest ih =>
    intro m k
    rw [List.foldl_cons, ih, mapGet_trainStep]
    by_cases hk : k = p
    · subst hk
      rw [if_pos rfl]
      have hcount : (k :: rest).count k = rest.count k + 1 := by
        simp [List.count_cons]
      rw [hcount]
      cases mapGet m k with
      | some v =>
        simp only [specCount]
        push_cast
        ring_nf
      | none =>
        simp only [specCount, Nat.add_one_ne_zero, if_neg, if_false]
        push_cast
        ring_nf
    · rw [if_neg hk]
      have hpk : ¬ p = k := fun hcontr => hk hcontr.symm
      have hcount : (p :: rest).count k = rest.count k := by
        simp [List.count_cons, hpk]
      rw [hcount]

/-- One training step preserves distinctness of the keys. -/
theorem keysNodup_trainStep (m : BigramMatrix) (p : List Char)
    (h : (m.map (fun e => e.1)).Nodup) :
    ((trainStep m p).map (fun e => e.1)).Nodup := by
  unfold trainStep
  by_cases hin : (m.find? (fun e => e.1 = p)).isSome
  · rw [if_pos hin,
      map_comp_keyfix _ (fun e => by by_cases hh : e.1 = p <;> simp [hh])]
    exact h
  · rw [if_neg hin, List.map_append]
    have hnone : m.find? (fun e => e.1 = p) = none :=
      Option.not_isSome_iff_eq_none.mp hin
    have hnp : p ∉ m.map (fun e => e.1) := by
      intro hmem
      obtain ⟨e, he, hep⟩ := List.mem_map.mp hmem
      have := List.find?_eq_none.mp hnone e he
      simp [hep] at this
    rw [List.nodup_append]
    refine ⟨h, by simp, ?_⟩
    intro a ha hb
    rw [List.map_singleton, List.mem_singleton] at hb
    subst hb
    exact hnp ha

/-- Bumping the count of one key changes the total by one when the key
occurs (once, by key distinctness), and by nothing otherwise. -/
theorem bump_sum (p : List Char) :
    ∀ (m : BigramMatrix), (m.map (fun e => e.1)).Nodup →
      sumY (m.map (fun e => if e.1 = p then (e.1, e.2 + 1) else e)) =
        sumY m + (if (m.find? (fun e => e.1 = p)).isSome then 1 else 0) := by
  intro m
  induction m with
  | nil => intro _; simp [sumY]
  | cons e rest ih =>
    intro hnd
    rw [List.map_cons, List.nodup_cons] at hnd
    by_cases he : e.1 = p
    · have hrest : rest.map (fun x => if x.1 = p then (x.1, x.2 + 1) else x) =
          rest := by
        apply map_eq_self_of_mem
        intro x hx
        have hxp : ¬ x.1 = p := by
          intro hcontr
          have hmem : x.1 ∈ rest.map (fun y => y.1) :=
            List.mem_map_of_mem _ hx
          have hex : e.1 = x.1 := he.trans hcontr.symm
          rw [← hex] at hmem
          exact hnd.1 hmem
        rw [if_neg hxp]
      rw [List.map_cons, if_pos he, hrest,
        List.find?_cons_of_pos _ (by simp [he])]
      simp [sumY]
      ring
    · rw [List.map_cons, if_neg he, List.find?_cons_of_neg _ (by simp [he])]
      have := ih hnd.2
      simp only [sumY, List.map_cons, List.sum_cons] at this ⊢
      rw [this]
      ring

/-- One training step adds exactly one observation to the total. -/
theorem sumY_trainStep (m : BigramMatrix) (p : List Char)
    (h : (m.map (fun e => e.1)).Nodup) :
    sumY (trainStep m p) = sumY m + 1 := by
  unfold trainStep
  by_cases hin : (m.find? (fun e => e.1 = p)).isSome
  · rw [if_pos hin, bump_sum p m h, if_pos hin]
  · rw [if_neg hin]
    simp [sumY]

/-- The training fold keeps the keys distinct and counts one
observation per processed pair. -/
theorem trainFold_nodup_sum (ps : List (List Char)) :
    ∀ (m : BigramMatrix), (m.map (fun e => e.1)).Nodup →
      ((ps.foldl trainStep m).map (fun e => e.1)).Nodup ∧
      sumY (ps.foldl trainStep m) = sumY m + (ps.length : ℚ) := by
  induction ps with
  | nil => intro m h; exact ⟨h, by simp⟩
  | cons p rest ih =>
    intro m h
    rw [List.foldl_cons]
    obtain ⟨h1, h2⟩ := ih (trainStep m p) (keysNodup_trainStep m p h)
    refine ⟨h1, ?_⟩
    rw [h2, sumY_trainStep m p h]
    simp only [List.length_cons]
    push_cast
    ring

/-- Key lookup is invariant under permutation of a matrix with
distinct keys. -/
theorem find?_key_perm {l1 l2 : BigramMatrix} (h : l1.Perm l2)
    (k : List Char) :
    (l1.map (fun e => e.1)).Nodup →
      l1.find? (fun e => e.1 = k) = l2.find? (fun e => e.1 = k) := by
  induction h with
  | nil => intro _; rfl
  | cons x h12 ih =>
    intro hnd
    rw [List.map_cons, List.nodup_cons] at hnd
    by_cases hx : x.1 = k
    · rw [List.find?_cons_of_pos _ (by simp [hx]),
        List.find?_cons_of_pos _ (by simp [hx])]
    · rw [List.find?_cons_of_neg _ (by simp [hx]),
        List.find?_cons_of_neg _ (by simp [hx]), ih hnd.2]
  | swap x y t =>
    intro hnd
    simp only [List.map_cons, List.nodup_cons, List.mem_cons,
      List.mem_map] at hnd
    have hxy : ¬ y.1 = x.1 := fun hcontr => hnd.1 (Or.inl hcontr)
    by_cases hy : y.1 = k <;> by_cases hx : x.1 = k
    · exact absurd (hy.trans hx.symm) hxy
    · rw [List.find?_cons_of_pos _ (by simp [hy]),
        List.find?_cons_of_neg _ (by simp [hx]),
        List.find?_cons_of_pos _ (by simp [hy])]
    · rw [List.find?_cons_of_neg _ (by simp [hy]),
        List.find?_cons_of_pos _ (by simp [hx]),
        List.find?_cons_of_pos _ (by simp [hx])]
    · rw [List.find?_cons_of_neg _ (by simp [hy]),
        List.find?_cons_of_neg _ (by simp [hx]),
        List.find?_cons_of_neg _ (by simp [hx]),
        List.find?_cons_of_neg _ (by simp [hy])]
  | trans h12 h23 ih1 ih2 =>
    intro hnd
    rw [ih1 hnd, ih2 (((h12.map (fun e => e.1))).nodup hnd)]

set_option maxHeartbeats 1000000 in
/-- C7 (confirmed): the matrix produced by train maps each key to the
number of occurrences of that adjacent pair in the sanitized,
lowercased corpus (absent keys mean zero occurrences), the counts
total exactly the number of adjacent pairs, that number is the
sanitized length minus one, and a sanitized corpus of length at most
one yields the empty matrix; all of this is unaffected by the
descending sort, because key lookup and count sum are invariant under
permutation of the distinct-keyed entry list. -/
theorem C7_train_matrix (sample : List Char)
    (goodLines badLines : LinesInput) :
    (∀ p, mapGet (train sample goodLines badLines).matrix p =
      specCount none
        ((pairsOf ((sanitizeText sample).map Char.toLower)).count p)) ∧
    sumY (train sample goodLines badLines).matrix =
      ((pairsOf ((sanitizeText sample).map Char.toLower)).length : ℚ) ∧
    (pairsOf ((sanitizeText sample).map Char.toLower)).length =
      ((sanitizeText sample).map Char.toLower).length - 1 ∧
    (((sanitizeText sample).map Char.toLower).length ≤ 1 →
      (train sample goodLines badLines).matrix = []) := by
  have hmatrix : (train sample goodLines badLines).matrix =
      List.insertionSort (fun a b : MatrixEntry => b.2 ≤ a.2)
        ((pairsOf ((sanitizeText sample).map Char.toLower)).foldl
          trainStep []) := rfl
  have hfold := trainFold_nodup_sum
    (pairsOf ((sanitizeText sample).map Char.toLower)) [] (by simp)
  have hperm := List.perm_insertionSort (fun a b : MatrixEntry => b.2 ≤ a.2)
    ((pairsOf ((sanitizeText sample).map Char.toLower)).foldl trainStep [])
  refine ⟨?_, ?_, pairsOf_length _, ?_⟩
  · intro p
    rw [hmatrix]
    unfold mapGet
    rw [(find?_key_perm hperm.symm p hfold.1).symm]
    have hlook := mapGet_trainFold
      (pairsOf ((sanitizeText sample).map Char.toLower)) [] p
    unfold mapGet at hlook
    rw [hlook]
    rfl
  · rw [hmatrix]
    have hsum : sumY (List.insertionSort (fun a b : MatrixEntry => b.2 ≤ a.2)
        ((pairsOf ((sanitizeText sample).map Char.toLower)).foldl
          trainStep [])) =
        sumY ((pairsOf ((sanitizeText sample).map Char.toLower)).foldl
          trainStep []) := by
      unfold sumY
      exact (hperm.map (fun e => e.2)).sum_eq
    rw [hsum, hfold.2]
    simp [sumY]
  · intro hle
    have hps : pairsOf ((sanitizeText sample).map Char.toLower) = [] :=
      zero_pairs_of_short (by omega)
    rw [hmatrix, hps]
    rfl

/-- C7 witness: the theorem applied to a one-character corpus, whose
sanitized form has length one: the matrix is empty and every pair
lookup misses. -/
theorem C7_train_matrix_witness :
    (train ['a'] (.arr []) (.arr [])).matrix = [] ∧
    mapGet (train ['a'] (.arr []) (.arr [])).matrix ['a', 'a'] = none := by
  have h := C7_train_matrix ['a'] (.arr []) (.arr [])
  refine ⟨h.2.2.2 (by decide), ?_⟩
  rw [h.1 ['a', 'a']]
  decide

/-- The sanitizer output never contains a tab, by the same chain as
for the line feed. -/
theorem tab_notin_sanitizeText (x : List Char) : '\t' ∉ sanitizeText x := by
  intro hin
  simp only [sanitizeText, collapseSpaces, replaceTerminators, replaceTab,
    replaceNL] at hin
  have h6 := (List.mem_filter.mp hin).1
  rcases mem_convertToLatin h6 with h5 | ⟨e, he, hce⟩
  · have h4 := mem_collapseSpacesAux false _ h5
    obtain ⟨d, hd, hdc⟩ := List.mem_map.mp h4
    have hd2 : d = '\t' := replaceTerminatorChar_eq_tab hdc
    subst hd2
    obtain ⟨d2, _, hd2c⟩ := List.mem_map.mp hd
    exact replaceTabChar_ne_tab d2 hd2c
  · have hdec : ∀ e ∈ nfdTable, ('\t' : Char) ∉ e.2 := by decide
    exact hdec e he hce

/-- Every character of the sanitizer output is ASCII. -/
theorem ascii_of_mem_sanitizeText {c : Char} {x : List Char}
    (h : c ∈ sanitizeText x) : isAscii c = true := by
  simp only [sanitizeText] at h
  have h6 := (List.mem_filter.mp h).1
  unfold convertToLatinEquivalent at h6
  exact (List.mem_filter.mp h6).2

/-- No character of the sanitizer output is a noise character. -/
theorem not_noise_of_mem_sanitizeText {c : Char} {x : List Char}
    (h : c ∈ sanitizeText x) : isNoiseChar c = false := by
  simp only [sanitizeText] at h
  have h2 := (List.mem_filter.mp h).2
  simpa using h2

/-- A flat map over a list each of whose elements maps to its own
singleton is the identity. -/
theorem flatMap_eq_self_of_mem {f : Char → List Char} {l : List Char}
    (h : ∀ a ∈ l, f a = [a]) : l.flatMap f = l := by
  induction l with
  | nil => rfl
  | cons a rest ih =>
    rw [List.flatMap_cons, h a (List.mem_cons_self a rest),
      ih (fun x hx => h x (List.mem_cons_of_mem a hx))]
    rfl

/-- An ASCII character has no decomposition: every key of the table is
non-ASCII. -/
theorem nfdDecomp_ascii {c : Char} (h : isAscii c = true) :
    nfdDecomp c = [c] := by
  unfold nfdDecomp
  have hnone : nfdTable.find? (fun e => e.1 = c) = none := by
    apply List.find?_eq_none.mpr
    intro e he
    have htab : ∀ e ∈ nfdTable, isAscii e.1 = false := by decide
    simp only [decide_eq_true_eq]
    intro hEq
    have hfa := htab e he
    rw [hEq] at hfa
    simp [hfa] at h
  rw [hnone]

/-- An ASCII character is not a combining mark. -/
theorem ascii_not_comb {c : Char} (h : isAscii c = true) :
    isCombiningMark c = false := by
  unfold isAscii at h
  unfold isCombiningMark
  simp only [decide_eq_true_eq] at h
  simp only [decide_eq_false_iff_not]
  omega

/-- The Latin conversion is the identity on ASCII strings. -/
theorem convertToLatin_eq_self {l : List Char}
    (h : ∀ c ∈ l, isAscii c = true) : convertToLatinEquivalent l = l := by
  unfold convertToLatinEquivalent
  rw [flatMap_eq_self_of_mem (fun a ha => nfdDecomp_ascii (h a ha))]
  have hcomb : l.filter (fun c => !isCombiningMark c) = l :=
    List.filter_eq_self.mpr (fun a ha => by simp [ascii_not_comb (h a ha)])
  rw [hcomb]
  exact List.filter_eq_self.mpr h

/-- The collapse scan in skip mode never emits a leading space. -/
theorem head_collapseSpacesAux_true :
    ∀ (s : List Char), (collapseSpacesAux true s).head? ≠ some ' '
  | [] => by simp [collapseSpacesAux]
  | a :: rest => by
    by_cases ha : a = ' '
    · subst ha
      rw [collapseSpacesAux, if_pos rfl]
      simpa using head_collapseSpacesAux_true rest
    · rw [collapseSpacesAux, if_neg ha]
      simp only [List.head?_cons, ne_eq, Option.some.injEq]
      exact ha

/-- The collapse scan leaves no two adjacent spaces. -/
theorem noDouble_collapseSpacesAux :
    ∀ (b : Bool) (s : List Char), noDouble (collapseSpacesAux b s) = true
  | _, [] => by simp [collapseSpacesAux, noDouble]
  | b, a :: rest => by
    by_cases ha : a = ' '
    · subst ha
      rw [collapseSpacesAux, if_pos rfl]
      cases b with
      | true => simpa using noDouble_collapseSpacesAux true rest
      | false =>
        have h1 := head_collapseSpacesAux_true rest
        have h2 := noDouble_collapseSpacesAux true rest
        simp [noDouble, h1, h2]
    · rw [collapseSpacesAux, if_neg ha]
      rw [noDouble]
      have h2 := noDouble_collapseSpacesAux false rest
      simp [ha, h2]

/-- The collapse scan is the identity on a string with no two adjacent
spaces (in skip mode, provided the string does not begin with a
space). -/
theorem collapseSpacesAux_eq_self :
    ∀ (s : List Char), noDouble s = true →
      collapseSpacesAux false s = s ∧
      (s.head? ≠ some ' ' → collapseSpacesAux true s = s)
  | [] => fun _ => ⟨rfl, fun _ => rfl⟩
  | a :: rest => fun hnd => by
    rw [noDouble, Bool.and_eq_true] at hnd
    have hnd1 := hnd.1
    have hnd2 : noDouble rest = true := hnd.2
    by_cases ha : a = ' '
    · subst ha
      have hhr : rest.head? ≠ some ' ' := by
        intro hcontr
        rw [hcontr] at hnd1
        simp at hnd1
      constructor
      · rw [collapseSpacesAux, if_pos rfl]
        have := (collapseSpacesAux_eq_self rest hnd2).2 hhr
        simp [this]
      · intro hcontr
        exact absurd (by simp) hcontr
    · constructor
      · rw [collapseSpacesAux, if_neg ha]
        simp [(collapseSpacesAux_eq_self rest hnd2).1]
      · intro _
        rw [collapseSpacesAux, if_neg ha]
        simp [(collapseSpacesAux_eq_self rest hnd2).1]

/-- Collapsing spaces is idempotent. -/
theorem collapseSpaces_idem (s : List Char) :
    collapseSpaces (collapseSpaces s) = collapseSpaces s :=
  (collapseSpacesAux_eq_self _ (noDouble_collapseSpacesAux false s)).1

/-- A CRLF scan over a string without line feeds is the identity. -/
theorem replaceCRLF_eq_self {s : List Char} (h : ∀ c ∈ s, c ≠ '\n') :
    replaceCRLF s = s := by
  induction s using replaceCRLF.induct with
  | case1 => rfl
  | case2 c => rfl
  | case3 c1 c2 rest hif ih =>
    exact absurd hif.2 (h c2 (List.mem_cons_of_mem _ (List.mem_cons_self _ _)))
  | case4 c1 c2 rest hif ih =>
    rw [replaceCRLF, if_neg hif,
      ih (fun c hc => h c (List.mem_cons_of_mem _ hc))]

/-- A second sanitization only collapses the space runs that the noise
removal of the first pass may have created: every other step of the
second pass is the identity on the output of the first. -/
theorem sanitizeText_sanitizeText (x : List Char) :
    sanitizeText (sanitizeText x) = collapseSpaces (sanitizeText x) := by
  have hrnl := replaceNL_sanitizeText x
  have hnl : ∀ c ∈ sanitizeText x, c ≠ '\n' :=
    fun c hc hEq => nl_notin_sanitizeText x (hEq ▸ hc)
  have htab : ∀ c ∈ sanitizeText x, c ≠ '\t' :=
    fun c hc hEq => tab_notin_sanitizeText x (hEq ▸ hc)
  have hascii : ∀ c ∈ sanitizeText x, isAscii c = true :=
    fun c hc => ascii_of_mem_sanitizeText hc
  have hnoise : ∀ c ∈ sanitizeText x, isNoiseChar c = false :=
    fun c hc => not_noise_of_mem_sanitizeText hc
  set y := sanitizeText x with hy
  have hterm : ∀ c ∈ y, ¬(c = '!' ∨ c = '?' ∨ c = '.') := by
    intro c hc h
    have hnz := hnoise c hc
    rcases h with h | h | h <;> subst h <;> exact absurd hnz (by decide)
  show sanitizeText y = collapseSpaces y
  simp only [sanitizeText]
  rw [replaceCRLF_eq_self hnl, hrnl]
  rw [show replaceTab y = y from map_eq_self_of_mem (fun c hc => by
    unfold replaceTabChar
    exact if_neg (htab c hc))]
  rw [show replaceTerminators y = y from map_eq_self_of_mem (fun c hc => by
    unfold replaceTerminatorChar
    exact if_neg (hterm c hc))]
  have hconv : convertToLatinEquivalent (collapseSpaces y) = collapseSpaces y :=
    convertToLatin_eq_self
      (fun c hc => hascii c (mem_collapseSpacesAux false y hc))
  rw [hconv]
  exact List.filter_eq_self.mpr (fun c hc => by
    rw [hnoise c (mem_collapseSpacesAux false y hc)]
    rfl)

/-- C3 (corrected) — the claim as frozen is false on the code: the
noise-removal step runs after the space-collapsing step, so removing a
digit between two spaces leaves a double space that a second pass then
collapses; the concrete input a-space-1-space-b sanitizes to a double
space but re-sanitizes to a single one. -/
theorem C3_counterexample :
    sanitizeText (sanitizeText ['a', ' ', '1', ' ', 'b']) ≠
      sanitizeText ['a', ' ', '1', ' ', 'b'] := by decide

/-- C3 (amended): sanitize is idempotent from the second application
on: applying sanitize twice is an idempotent operation, because a
second pass only collapses the space runs created by the first pass
noise removal and every later pass is then the identity. -/
theorem C3_sanitize_twice_idempotent (x : List Char) :
    sanitizeText (sanitizeText (sanitizeText x)) =
      sanitizeText (sanitizeText x) := by
  rw [sanitizeText_sanitizeText (sanitizeText x), sanitizeText_sanitizeText x,
    collapseSpaces_idem]

end Gibberish
